import Mathlib

/-!
Verification of the capture-and-persist orchestration loop of
yolo_tracker_save_hqsync.py (insect-detect fork).

The Python source is shallowly embedded as executable Lean definitions.
Observable actions (save calls, thread dispatches, scheduler activity,
the lost-frames update, cleanup steps) are recorded as an event trace so
that ordering and occurrence properties can be stated and proved.
-/

namespace InsectDetect

/-- Minimum free disk space threshold in MB (source line 112). -/
def MIN_DISKSPACE : Nat := 100

/-- Threshold for removing lost tracklets (source line 128). -/
def LOST_FRAMES_TILL_REMOVAL : Nat := 3

/-- Tracklet status as reported by the object tracker (depthai). -/
inductive TrackletStatus where
  | NEW
  | TRACKED
  | LOST
  | REMOVED
deriving DecidableEq, Repr

/-- One tracklet from the tracker output: its tracking ID and status.
Bounding box, label and confidence are not needed by any verified
property and are abstracted away. -/
structure Tracklet where
  id : Nat
  status : TrackletStatus
deriving DecidableEq, Repr

/-- The lost_frames counter map (source line 129, a defaultdict keyed by
track ID), embedded as an insertion-ordered association list, matching
Python dict iteration order. -/
abbrev LostFrames := List (Nat × Nat)

/-- One execution of the lost_frames update block (source lines 340-352):
iterate over the EXISTING keys of lost_frames; a key present in the
current track-ID list is reset to 0, an absent key is incremented and,
on reaching LOST_FRAMES_TILL_REMOVAL, reported (send_track_data) and
deleted.  Returns the new map and the IDs reported, in iteration order.
Note that no statement in the source ever inserts a missing key: the
loop ranges over lost_frames.keys() only, so the defaultfactory of the
defaultdict is never exercised here.  (A deletion during iteration
would raise a RuntimeError in Python; it is proved below that the map
is always empty, so that path is unreachable.) -/
def lostFramesPass : LostFrames → List Nat → LostFrames × List Nat
  | [], _ => ([], [])
  | (k, v) :: rest, currentIds =>
    let r := lostFramesPass rest currentIds
    if k ∈ currentIds then ((k, 0) :: r.1, r.2)
    else if LOST_FRAMES_TILL_REMOVAL ≤ v + 1 then (r.1, k :: r.2)
    else ((k, v + 1) :: r.1, r.2)

/-- Observable actions of the orchestration loop, in program order.
Numbers identify frame buffers (a fresh number per allocated image
buffer) and dispatched threads (a running counter). -/
inductive Event where
  /-- The while condition passed and a loop iteration begins. -/
  | tickStart
  /-- The scheduler job saving a full frame fires with its current frame
  argument (save_full_frame, scheduled at source lines 260-261). -/
  | fireFull (buf : Option Nat)
  /-- scheduler.modify_job replaces the full-frame job argument with the
  live HQ frame buffer (source line 296). -/
  | modifyFull (buf : Nat)
  /-- Synchronous save_crop_metadata for tracklet index idx with the given
  track ID, reading the given frame buffer (source lines 321-322). -/
  | saveCrop (idx trackId buf : Nat)
  /-- save_crop_metadata raised an exception for tracklet index idx. -/
  | cropRaise (idx trackId : Nat)
  /-- A thread running save_full_frame is started with the given frame
  buffer (source lines 326-329); idx is the dispatching tracklet index,
  tid the thread number. -/
  | dispatchFull (idx tid buf : Nat)
  /-- A thread running save_overlay_frame is started with the given frame
  buffer (source lines 333-338). -/
  | dispatchOverlay (idx tid trackId buf : Nat)
  /-- One execution of the lost_frames update block (source lines 340-352). -/
  | lfUpdate
  /-- send_track_data is invoked for the given track ID (source line 351). -/
  | sendTrack (trackId : Nat)
  /-- The per-tick prune (source line 358) observed this thread as no
  longer alive, i.e. the thread has completed. -/
  | threadDone (tid : Nat)
  /-- scheduler.shutdown in the finally block (source line 377): waits for
  executing jobs, refuses new firings. -/
  | schedulerShutdown
  /-- thread.join in the finally block (source lines 380-381). -/
  | joinThread (tid : Nat)
  /-- record_log writes the session summary row (source line 385). -/
  | recordLog
deriving DecidableEq, Repr

/-- The command-line options that influence the verified control flow. -/
inductive FullMode where
  | det
  | freq
deriving DecidableEq, Repr

/-- The relevant parsed arguments (source lines 81-103). -/
structure Args where
  saveFullFrames : Option FullMode
  saveOverlayFrames : Bool
  saveLogs : Bool
deriving DecidableEq, Repr

/-- A BackgroundScheduler is created iff logs are saved or full frames are
saved at a fixed frequency (source lines 246-250). -/
def schedulerExists (a : Args) : Bool :=
  a.saveLogs || a.saveFullFrames == some FullMode.freq

/-- Result of processing the tracklets of one drained sample. -/
structure TickResult where
  events : List Event
  lf : LostFrames
  nextTid : Nat
  raised : Bool
deriving Repr

/-- The persistence work done for one tracklet with a TRACKED status
(source lines 304-338): the synchronous crop save, then the full-frame
thread if the detection mode is active and this is the last tracklet
(tracklet == tracks[-1], source line 324), then the overlay thread if
overlays are enabled (source line 331, with no last-tracklet guard).
Returns the emitted events and the updated thread counter. -/
def trackletEvents (args : Args) (fbuf obuf n i : Nat) (t : Tracklet)
    (tid : Nat) : List Event × Nat :=
  if t.status = TrackletStatus.TRACKED then
    let doFull := args.saveFullFrames = some FullMode.det ∧ i + 1 = n
    let e2 : List Event := if doFull then [Event.dispatchFull i tid fbuf] else []
    let tid1 := if doFull then tid + 1 else tid
    let e3 : List Event :=
      if args.saveOverlayFrames = true then [Event.dispatchOverlay i tid1 t.id obuf] else []
    let tid2 := if args.saveOverlayFrames = true then tid1 + 1 else tid1
    (Event.saveCrop i t.id fbuf :: e2 ++ e3, tid2)
  else ([], tid)

/-- The body of the for-tracklet loop (source lines 302-352).  The
lost_frames update block sits INSIDE this loop in the source (lines
340-352 are indented under line 302), so it executes once per tracklet.
cropOk models whether save_crop_metadata succeeds for the tracklet at a
given index; a raised exception aborts the loop at once (there is no
except handler in the source, lines 366-372 are commented out). -/
def processTracksAux (args : Args) (fbuf obuf n : Nat) (allIds : List Nat)
    (cropOk : Nat → Bool) : List Tracklet → Nat → LostFrames → Nat → TickResult
  | [], _, lf, tid => ⟨[], lf, tid, false⟩
  | t :: rest, i, lf, tid =>
    if t.status = TrackletStatus.TRACKED ∧ cropOk i = false then
      ⟨[Event.cropRaise i t.id], lf, tid, true⟩
    else
      let p := trackletEvents args fbuf obuf n i t tid
      let q := lostFramesPass lf allIds
      let r := processTracksAux args fbuf obuf n allIds cropOk rest (i + 1) q.1 p.2
      ⟨p.1 ++ Event.lfUpdate :: q.2.map Event.sendTrack ++ r.events, r.lf, r.nextTid, r.raised⟩

/-- Processing of all tracklets of one drained sample, starting at index
0; current_track_ids (source line 340) is the list of ALL tracklet IDs
of the sample, recomputed identically on every iteration. -/
def processTracks (args : Args) (fbuf obuf : Nat) (cropOk : Nat → Bool)
    (tracks : List Tracklet) (lf : LostFrames) (tid : Nat) : TickResult :=
  processTracksAux args fbuf obuf tracks.length (tracks.map (fun t => t.id))
    cropOk tracks 0 lf tid

/-- Extract the thread number carried by a dispatch event. -/
def Event.dispatchTid : Event → Option Nat
  | Event.dispatchFull _ tid _ => some tid
  | Event.dispatchOverlay _ tid _ _ => some tid
  | _ => none

/-- Thread numbers of all dispatch events of a trace, in dispatch order;
this is the order in which the source appends started threads to the
threads list (source lines 329 and 338). -/
def dispatchedTids (l : List Event) : List Nat :=
  l.filterMap Event.dispatchTid

/-- The environment of one iteration of the while loop: the value
time.monotonic() would return at the loop test, the drained sample if
both queues have data (source line 290), the free-disk-space probe
result (source line 355), the thread numbers the prune observes as no
longer alive (source line 358), whether the frequency-based full-frame
scheduler job fires during this iteration, and whether the
save_crop_metadata call for a given tracklet index succeeds. -/
structure LoopInput where
  now : Nat
  sample : Option (List Tracklet)
  diskAfter : Nat
  finished : List Nat
  fireFull : Bool
  cropOk : Nat → Bool

/-- The mutable state threaded through the while loop: the lost_frames
map, the current free-disk-space estimate, the list of live dispatched
threads, the argument currently attached to the frequency-based
full-frame scheduler job, and allocation counters for thread numbers
and frame buffers. -/
structure LoopState where
  lf : LostFrames
  diskFree : Nat
  threads : List Nat
  fullArg : Option Nat
  nextTid : Nat
  nextBuf : Nat
deriving Repr

/-- State at loop entry: lost_frames is empty (source line 129), the
thread list is empty (source line 283), the full-frame scheduler job
was added with a None frame argument (source lines 260-261), and
disk_free holds the startup probe (source line 139). -/
def initState (diskFree0 : Nat) : LoopState :=
  ⟨[], diskFree0, [], none, 0, 0⟩

/-- Result of running the while loop: the emitted trace, the final state
and whether an exception escaped the loop. -/
structure LoopResult where
  events : List Event
  state : LoopState
  raised : Bool

/-- The while loop (source lines 288-361).  The loop continues while
time.monotonic() < start_time + REC_TIME and disk_free > MIN_DISKSPACE,
both read at the top of each iteration.  On a drained sample: the
full-frame job argument is replaced with the live frame (freq mode), a
copy of the frame is taken when overlays are enabled (source line 300),
the tracklets are processed, then the disk probe, the thread prune and
the sleep run.  A raised save exception leaves the loop at once,
skipping probe, prune and sleep.  Frame buffers are numbered: fbuf is
the live HQ frame of the tick, obuf the single per-tick copy taken for
overlays (equal to fbuf when no copy is made, in which case it is never
used). -/
def runLoop (args : Args) (startTime recTime : Nat) :
    List LoopInput → LoopState → LoopResult
  | [], st => ⟨[], st, false⟩
  | inp :: rest, st =>
    if inp.now < startTime + recTime ∧ MIN_DISKSPACE < st.diskFree then
      let fireEvs : List Event :=
        if args.saveFullFrames = some FullMode.freq ∧ inp.fireFull = true then
          [Event.fireFull st.fullArg]
        else []
      match inp.sample with
      | none =>
        let doneTids := st.threads.filter (fun t => decide (t ∈ inp.finished))
        let st2 := { st with diskFree := inp.diskAfter,
                             threads := st.threads.filter (fun t => !decide (t ∈ inp.finished)) }
        let r := runLoop args startTime recTime rest st2
        ⟨Event.tickStart :: fireEvs ++ doneTids.map Event.threadDone ++ r.events,
         r.state, r.raised⟩
      | some tracks =>
        let fbuf := st.nextBuf
        let obuf := if args.saveOverlayFrames = true then st.nextBuf + 1 else st.nextBuf
        let nb := if args.saveOverlayFrames = true then st.nextBuf + 2 else st.nextBuf + 1
        let modEvs : List Event :=
          if args.saveFullFrames = some FullMode.freq then [Event.modifyFull fbuf] else []
        let fullArg2 :=
          if args.saveFullFrames = some FullMode.freq then some fbuf else st.fullArg
        let tr := processTracks args fbuf obuf inp.cropOk tracks st.lf st.nextTid
        let threads1 := st.threads ++ dispatchedTids tr.events
        if tr.raised = true then
          ⟨Event.tickStart :: fireEvs ++ modEvs ++ tr.events,
           { lf := tr.lf, diskFree := st.diskFree, threads := threads1,
             fullArg := fullArg2, nextTid := tr.nextTid, nextBuf := nb }, true⟩
        else
          let doneTids := threads1.filter (fun t => decide (t ∈ inp.finished))
          let st2 : LoopState :=
            { lf := tr.lf, diskFree := inp.diskAfter,
              threads := threads1.filter (fun t => !decide (t ∈ inp.finished)),
              fullArg := fullArg2, nextTid := tr.nextTid, nextBuf := nb }
          let r := runLoop args startTime recTime rest st2
          ⟨Event.tickStart :: fireEvs ++ modEvs ++ tr.events
             ++ doneTids.map Event.threadDone ++ r.events,
           r.state, r.raised⟩
    else ⟨[], st, false⟩

/-- The finally block (source lines 374-385): shut down the scheduler if
one exists (waiting for executing jobs), join every thread still in the
threads list, then write the session summary row with record_log. -/
def cleanup (args : Args) (st : LoopState) : List Event :=
  (if schedulerExists args = true then [Event.schedulerShutdown] else [])
    ++ st.threads.map Event.joinThread ++ [Event.recordLog]

/-- A whole run of the recording part of the program: the while loop
followed by the finally block, which runs both on normal loop exit and
when an exception escapes the loop. -/
def runProgram (args : Args) (startTime recTime diskFree0 : Nat)
    (inputs : List LoopInput) : List Event :=
  let r := runLoop args startTime recTime inputs (initState diskFree0)
  r.events ++ cleanup args r.state

/-- Effects of the startup sequence before the recording loop. -/
inductive StartupEffect where
  /-- The data directory is created (source line 132). -/
  | mkdirDataDir
  /-- The low-disk message is written to the log file (source line 141). -/
  | logShutdown
  /-- The sudo shutdown command is run (source line 142). -/
  | shutdownCmd
  /-- The incremented recording ID is written to last_rec_id.txt
  (source lines 145-147). -/
  | writeRecId
  /-- The per-recording session directory is created (source lines 150-153). -/
  | mkdirSavePath
  /-- The full-frame subdirectory is created (source lines 154-155). -/
  | mkdirFullDir
  /-- The overlay subdirectory is created (source lines 156-157). -/
  | mkdirOverlayDir
deriving DecidableEq, Repr

/-- The startup sequence (source lines 132-157), given the startup
free-disk-space probe.  When the probe is below MIN_DISKSPACE the
script logs and runs the shutdown command, but no statement terminates
the script: execution falls through to the recording-ID write and the
session directory creation. -/
def startupEffects (args : Args) (disk0 : Nat) : List StartupEffect :=
  StartupEffect.mkdirDataDir ::
    (if disk0 < MIN_DISKSPACE then
      [StartupEffect.logShutdown, StartupEffect.shutdownCmd]
    else [])
    ++ [StartupEffect.writeRecId, StartupEffect.mkdirSavePath]
    ++ (if args.saveFullFrames.isSome then [StartupEffect.mkdirFullDir] else [])
    ++ (if args.saveOverlayFrames then [StartupEffect.mkdirOverlayDir] else [])

/-- Recognize a send_track_data invocation event. -/
def Event.isSendTrack : Event → Bool
  | Event.sendTrack _ => true
  | _ => false

/-- Recognize the events produced by the finally block. -/
def Event.isCleanupKind : Event → Bool
  | Event.schedulerShutdown => true
  | Event.joinThread _ => true
  | Event.recordLog => true
  | _ => false

/-- Recognize a scheduler full-frame firing event. -/
def Event.isFireFull : Event → Bool
  | Event.fireFull _ => true
  | _ => false

/-- Recognize the event kinds that processTracksAux can emit. -/
def Event.fromTickWork : Event → Bool
  | Event.saveCrop _ _ _ => true
  | Event.cropRaise _ _ => true
  | Event.dispatchFull _ _ _ => true
  | Event.dispatchOverlay _ _ _ _ => true
  | Event.lfUpdate => true
  | Event.sendTrack _ => true
  | _ => false

/-- The five-tick active-ID scenario from the specification, with one
TRACKED tracklet per listed ID, ample disk space and times far below
the recording duration. -/
def c1Inputs : List LoopInput :=
  [⟨0, some [⟨1, TrackletStatus.TRACKED⟩, ⟨2, TrackletStatus.TRACKED⟩], 1000, [], false,
     fun _ => true⟩,
   ⟨1, some [⟨1, TrackletStatus.TRACKED⟩], 1000, [], false, fun _ => true⟩,
   ⟨2, some [⟨1, TrackletStatus.TRACKED⟩], 1000, [], false, fun _ => true⟩,
   ⟨3, some [⟨1, TrackletStatus.TRACKED⟩], 1000, [], false, fun _ => true⟩,
   ⟨4, some [⟨2, TrackletStatus.TRACKED⟩], 1000, [], false, fun _ => true⟩]

/-- C1: on the specification scenario (threshold 3, active-ID sets
{1,2}, {1}, {1}, {1}, {2} over five ticks) the claim requires track 2
to be reported for finalization exactly once, after its third
consecutive absence.  The code never reports anything: the lost_frames
update only iterates over existing keys and no statement ever inserts a
key, so the map stays empty and send_track_data is never invoked for
any ID of the scenario.  This theorem evaluates the embedded code at
that failing input: the run emits no sendTrack event and the final
lost_frames map is empty. -/
theorem c1_scenario_never_finalizes :
    ((runProgram ⟨none, false, false⟩ 0 120 1000 c1Inputs).all
      (fun e => !e.isSendTrack)) = true
    ∧ (runLoop ⟨none, false, false⟩ 0 120 c1Inputs (initState 1000)).state.lf = [] := by
  constructor
  · decide
  · decide

/-- C3: the lost_frames update block (source lines 340-352) is indented
inside the for-tracklet loop, so within one tick with two TRACKED
tracklets it executes twice, and its first execution precedes the
second crop save — refuting the claim that the lifecycle update runs
exactly once per tick, after all per-track crop saves. -/
theorem c3_lf_update_runs_per_tracklet :
    (processTracks ⟨none, false, false⟩ 10 11 (fun _ => true)
      [⟨1, TrackletStatus.TRACKED⟩, ⟨2, TrackletStatus.TRACKED⟩] [] 0).events =
    [Event.saveCrop 0 1 10, Event.lfUpdate, Event.saveCrop 1 2 10, Event.lfUpdate] := by
  decide

/-- C4 counterexample: a run of two ticks in which save_crop_metadata
raises at the first tick (track 7).  The claim says the failure is
logged and the loop continues to the next tick; the code has no except
handler (source lines 366-372 are commented out), so the whole trace is
the aborted first tick followed directly by the finally block — the
second tick (track 99) is never processed and no failure is logged. -/
theorem c4_crop_exception_aborts_loop :
    runProgram ⟨none, false, false⟩ 0 120 1000
      [⟨0, some [⟨7, TrackletStatus.TRACKED⟩], 1000, [], false, fun _ => false⟩,
       ⟨1, some [⟨99, TrackletStatus.TRACKED⟩], 1000, [], false, fun _ => true⟩] =
    [Event.tickStart, Event.cropRaise 0 7, Event.recordLog] := by
  decide

/-- C5 counterexample: with overlays enabled and two TRACKED tracklets
in one tick, an overlay thread is dispatched for the FIRST tracklet
(index 0 of 2, not the last), refuting the claim that the asynchronous
overlay job is dispatched only for the last track of the tick: the
overlay dispatch at source line 331 has no last-tracklet guard. -/
theorem c5_overlay_dispatched_for_nonlast_track :
    Event.dispatchOverlay 0 0 1 11 ∈
      (processTracks ⟨none, true, false⟩ 10 11 (fun _ => true)
        [⟨1, TrackletStatus.TRACKED⟩, ⟨2, TrackletStatus.TRACKED⟩] [] 0).events := by
  decide

/-- C6 counterexample: with elapsed time 0 (below the 120 s recording
duration) and free disk exactly equal to the 100 MB floor, the claim
requires the loop to keep ticking (free space ≥ floor); the code stops,
because the while condition at source line 288 requires
disk_free > MIN_DISKSPACE strictly.  The trace shows zero loop
iterations: only the finally block runs. -/
theorem c6_stops_when_disk_equals_floor :
    ((0 : Nat) < 120 ∧ MIN_DISKSPACE ≤ 100) ∧
    runProgram ⟨none, false, false⟩ 0 120 100
      [⟨0, some [⟨5, TrackletStatus.TRACKED⟩], 1000, [], false, fun _ => true⟩] =
    [Event.recordLog] := by
  exact ⟨⟨by decide, by decide⟩, by decide⟩

/-- C7 counterexample: with a startup disk probe of 50 MB (below the
100 MB floor) the claim requires zero persistence operations, no
session directory use and an immediate exit.  The startup code runs the
shutdown command but no statement terminates the script, so execution
falls through to writing the recording-ID file and creating the session
directory. -/
theorem c7_session_opened_despite_low_disk :
    (50 : Nat) < MIN_DISKSPACE
    ∧ StartupEffect.writeRecId ∈ startupEffects ⟨none, false, false⟩ 50
    ∧ StartupEffect.mkdirSavePath ∈ startupEffects ⟨none, false, false⟩ 50 := by
  exact ⟨by decide, by decide, by decide⟩

/-- C9 counterexample: in one tick with two TRACKED tracklets, full
frames in detection mode and overlays enabled, the two dispatched
overlay threads (thread numbers 0 and 2) both receive the SAME buffer
11 (the single per-tick frame_hq_copy of source line 300), and the
full-frame thread (thread number 1) receives buffer 10 — the live
frame_hq, the very buffer the orchestrator uses for its synchronous
crop saves — refuting the claim that every asynchronous job owns an
exclusive snapshot and that no frame buffer is shared. -/
theorem c9_frame_buffers_shared :
    (processTracks ⟨some FullMode.det, true, false⟩ 10 11 (fun _ => true)
      [⟨1, TrackletStatus.TRACKED⟩, ⟨2, TrackletStatus.TRACKED⟩] [] 0).events =
    [Event.saveCrop 0 1 10, Event.dispatchOverlay 0 0 1 11, Event.lfUpdate,
     Event.saveCrop 1 2 10, Event.dispatchFull 1 1 10, Event.dispatchOverlay 1 2 2 11,
     Event.lfUpdate] := by
  decide

theorem trackletEvents_all {P : Event → Bool}
    (h1 : ∀ i t f, P (Event.saveCrop i t f) = true)
    (h2 : ∀ i tid f, P (Event.dispatchFull i tid f) = true)
    (h3 : ∀ i tid t o, P (Event.dispatchOverlay i tid t o) = true)
    (args : Args) (fbuf obuf n i : Nat) (t : Tracklet) (tid : Nat) :
    (trackletEvents args fbuf obuf n i t tid).1.all P = true := by
  unfold trackletEvents
  by_cases hs : t.status = TrackletStatus.TRACKED <;>
    by_cases hd : args.saveFullFrames = some FullMode.det ∧ i + 1 = n <;>
      by_cases ho : args.saveOverlayFrames = true <;>
        simp [hs, hd, ho, h1, h2, h3]

theorem processTracksAux_all {P : Event → Bool}
    (h1 : ∀ i t f, P (Event.saveCrop i t f) = true)
    (h2 : ∀ i tid f, P (Event.dispatchFull i tid f) = true)
    (h3 : ∀ i tid t o, P (Event.dispatchOverlay i tid t o) = true)
    (h4 : P Event.lfUpdate = true)
    (h5 : ∀ t, P (Event.sendTrack t) = true)
    (h6 : ∀ i t, P (Event.cropRaise i t) = true)
    (args : Args) (fbuf obuf n : Nat) (allIds : List Nat) (cropOk : Nat → Bool) :
    ∀ (tracks : List Tracklet) (i : Nat) (lf : LostFrames) (tid : Nat),
      (processTracksAux args fbuf obuf n allIds cropOk tracks i lf tid).events.all P = true := by
  intro tracks
  induction tracks with
  | nil => intro i lf tid; rfl
  | cons t rest ih =>
    intro i lf tid
    rw [processTracksAux]
    split
    · simp [h6]
    · simp [List.all_append, List.all_cons, List.all_map, h4, ih,
        trackletEvents_all h1 h2 h3, List.all_eq_true, h5, Function.comp]

theorem lostFramesPass_nil (ids : List Nat) : lostFramesPass [] ids = ([], []) := rfl

theorem processTracksAux_nil_all {P : Event → Bool}
    (h1 : ∀ i t f, P (Event.saveCrop i t f) = true)
    (h2 : ∀ i tid f, P (Event.dispatchFull i tid f) = true)
    (h3 : ∀ i tid t o, P (Event.dispatchOverlay i tid t o) = true)
    (h4 : P Event.lfUpdate = true)
    (h6 : ∀ i t, P (Event.cropRaise i t) = true)
    (args : Args) (fbuf obuf n : Nat) (allIds : List Nat) (cropOk : Nat → Bool) :
    ∀ (tracks : List Tracklet) (i : Nat) (tid : Nat),
      (processTracksAux args fbuf obuf n allIds cropOk tracks i [] tid).lf = []
      ∧ (processTracksAux args fbuf obuf n allIds cropOk tracks i [] tid).events.all
          P = true := by
  intro tracks
  induction tracks with
  | nil => intro i tid; exact ⟨rfl, rfl⟩
  | cons t rest ih =>
    intro i tid
    rw [processTracksAux]
    split
    · exact ⟨rfl, by simp [h6]⟩
    · refine ⟨(ih _ _).1, ?_⟩
      simp [lostFramesPass_nil, List.all_append, List.all_cons, h4,
        trackletEvents_all h1 h2 h3, (ih _ _).2]

theorem processTracks_all {P : Event → Bool}
    (h1 : ∀ i t f, P (Event.saveCrop i t f) = true)
    (h2 : ∀ i tid f, P (Event.dispatchFull i tid f) = true)
    (h3 : ∀ i tid t o, P (Event.dispatchOverlay i tid t o) = true)
    (h4 : P Event.lfUpdate = true)
    (h5 : ∀ t, P (Event.sendTrack t) = true)
    (h6 : ∀ i t, P (Event.cropRaise i t) = true)
    (args : Args) (fbuf obuf : Nat) (cropOk : Nat → Bool) (tracks : List Tracklet)
    (lf : LostFrames) (tid : Nat) :
    (processTracks args fbuf obuf cropOk tracks lf tid).events.all P = true :=
  processTracksAux_all h1 h2 h3 h4 h5 h6 args fbuf obuf _ _ cropOk tracks 0 lf tid

theorem runLoop_all {P : Event → Bool}
    (h1 : ∀ i t f, P (Event.saveCrop i t f) = true)
    (h2 : ∀ i tid f, P (Event.dispatchFull i tid f) = true)
    (h3 : ∀ i tid t o, P (Event.dispatchOverlay i tid t o) = true)
    (h4 : P Event.lfUpdate = true)
    (h5 : ∀ t, P (Event.sendTrack t) = true)
    (h6 : ∀ i t, P (Event.cropRaise i t) = true)
    (h7 : P Event.tickStart = true)
    (h8 : ∀ a, P (Event.fireFull a) = true)
    (h9 : ∀ b, P (Event.modifyFull b) = true)
    (h10 : ∀ t, P (Event.threadDone t) = true)
    (args : Args) (startTime recTime : Nat) :
    ∀ (inputs : List LoopInput) (st : LoopState),
      (runLoop args startTime recTime inputs st).events.all P = true := by
  intro inputs
  induction inputs with
  | nil => intro st; rfl
  | cons inp rest ih =>
    intro st
    have hmt : ∀ l : List Nat, (l.map Event.threadDone).all P = true := by
      intro l
      simp [List.all_map, List.all_eq_true, Function.comp, h10]
    rw [runLoop]
    split
    · cases hs : inp.sample with
      | none =>
        by_cases hf : args.saveFullFrames = some FullMode.freq ∧ inp.fireFull = true <;>
          simp [hf, List.all_cons, List.all_append, h7, h8, ih, hmt]
      | some tracks =>
        have hp := processTracks_all h1 h2 h3 h4 h5 h6 args st.nextBuf
        by_cases hf : args.saveFullFrames = some FullMode.freq ∧ inp.fireFull = true <;>
          by_cases hq : args.saveFullFrames = some FullMode.freq <;>
            by_cases hr :
              (processTracks args st.nextBuf
                (if args.saveOverlayFrames = true then st.nextBuf + 1 else st.nextBuf)
                inp.cropOk tracks st.lf st.nextTid).raised = true <;>
              simp [hf, hq, hr, List.all_cons, List.all_append, h7, h8, h9, ih, hp, hmt]
    · rfl

theorem processTracks_nil_all {P : Event → Bool}
    (h1 : ∀ i t f, P (Event.saveCrop i t f) = true)
    (h2 : ∀ i tid f, P (Event.dispatchFull i tid f) = true)
    (h3 : ∀ i tid t o, P (Event.dispatchOverlay i tid t o) = true)
    (h4 : P Event.lfUpdate = true)
    (h6 : ∀ i t, P (Event.cropRaise i t) = true)
    (args : Args) (fbuf obuf : Nat) (cropOk : Nat → Bool)
    (tracks : List Tracklet) (tid : Nat) :
    (processTracks args fbuf obuf cropOk tracks [] tid).lf = []
    ∧ (processTracks args fbuf obuf cropOk tracks [] tid).events.all P = true :=
  processTracksAux_nil_all h1 h2 h3 h4 h6 args fbuf obuf _ _ cropOk tracks 0 tid

theorem processTracks_lf_nil (args : Args) (fbuf obuf : Nat) (cropOk : Nat → Bool)
    (tracks : List Tracklet) (tid : Nat) :
    (processTracks args fbuf obuf cropOk tracks [] tid).lf = []
    ∧ (processTracks args fbuf obuf cropOk tracks [] tid).events.all
        (fun e => !e.isSendTrack) = true := by
  apply processTracksAux_nil_all <;> intros <;> rfl

theorem runLoop_state_lf (args : Args) (startTime recTime : Nat) :
    ∀ (inputs : List LoopInput) (st : LoopState), st.lf = [] →
      (runLoop args startTime recTime inputs st).state.lf = [] := by
  intro inputs
  induction inputs with
  | nil => intro st h; exact h
  | cons inp rest ih =>
    intro st h
    rw [runLoop]
    split
    · cases hs : inp.sample with
      | none => exact ih _ h
      | some tracks =>
        dsimp only
        rw [h]
        rcases Bool.eq_false_or_eq_true ((processTracks args st.nextBuf
            (if args.saveOverlayFrames = true then st.nextBuf + 1 else st.nextBuf)
            inp.cropOk tracks [] st.nextTid).raised) with hr | hr
        · rw [if_pos hr]
          exact (processTracks_lf_nil args _ _ inp.cropOk tracks _).1
        · rw [if_neg (by simp [hr])]
          exact ih _ (processTracks_lf_nil args _ _ inp.cropOk tracks _).1
    · exact h

theorem runLoop_nil_all {P : Event → Bool}
    (h1 : ∀ i t f, P (Event.saveCrop i t f) = true)
    (h2 : ∀ i tid f, P (Event.dispatchFull i tid f) = true)
    (h3 : ∀ i tid t o, P (Event.dispatchOverlay i tid t o) = true)
    (h4 : P Event.lfUpdate = true)
    (h6 : ∀ i t, P (Event.cropRaise i t) = true)
    (h7 : P Event.tickStart = true)
    (h8 : ∀ a, P (Event.fireFull a) = true)
    (h9 : ∀ b, P (Event.modifyFull b) = true)
    (h10 : ∀ t, P (Event.threadDone t) = true)
    (args : Args) (startTime recTime : Nat) :
    ∀ (inputs : List LoopInput) (st : LoopState), st.lf = [] →
      (runLoop args startTime recTime inputs st).events.all P = true := by
  intro inputs
  induction inputs with
  | nil => intro st h; rfl
  | cons inp rest ih =>
    intro st h
    have hmt : ∀ l : List Nat, (l.map Event.threadDone).all P = true := by
      intro l
      simp [List.all_map, List.all_eq_true, Function.comp, h10]
    rw [runLoop]
    split
    · cases hs : inp.sample with
      | none =>
        by_cases hf : args.saveFullFrames = some FullMode.freq ∧ inp.fireFull = true <;>
          simp [hf, List.all_cons, List.all_append, hmt, h7, h8, ih, h]
      | some tracks =>
        dsimp only
        rw [h]
        have hp := processTracks_nil_all h1 h2 h3 h4 h6 args st.nextBuf
          (if args.saveOverlayFrames = true then st.nextBuf + 1 else st.nextBuf)
          inp.cropOk tracks st.nextTid
        by_cases hf : args.saveFullFrames = some FullMode.freq ∧ inp.fireFull = true <;>
          by_cases hq : args.saveFullFrames = some FullMode.freq <;>
            by_cases hr : (processTracks args st.nextBuf
                (if args.saveOverlayFrames = true then st.nextBuf + 1 else st.nextBuf)
                inp.cropOk tracks [] st.nextTid).raised = true <;>
              simp [hf, hq, hr, List.all_cons, List.all_append, hmt, h7, h8, h9,
                hp.2, ih, hp.1]
    · rfl

theorem runLoop_no_send (args : Args) (startTime recTime : Nat)
    (inputs : List LoopInput) (st : LoopState) (h : st.lf = []) :
    (runLoop args startTime recTime inputs st).events.all
      (fun e => !e.isSendTrack) = true := by
  apply runLoop_nil_all <;> first | exact h | (intros; rfl)

theorem cleanup_no_send (args : Args) (st : LoopState) :
    (cleanup args st).all (fun e => !e.isSendTrack) = true := by
  unfold cleanup
  by_cases hs : schedulerExists args = true <;>
    simp [hs, List.all_cons, List.all_append, List.all_map, List.all_eq_true,
      Function.comp, Event.isSendTrack]

/-- C2: in every execution of the embedded program — any flags, any
start time, recording duration and startup disk probe, any sequence of
loop inputs — the lost_frames map never acquires an entry (the final
map is empty, and since any intermediate map is the final map of a
shorter run, every intermediate map is empty too) and send_track_data
is never invoked: the reset and increment lines iterate only over the
existing keys of lost_frames and no statement inserts a first-seen ID. -/
theorem c2_lost_frames_stays_empty (args : Args) (startTime recTime diskFree0 : Nat)
    (inputs : List LoopInput) :
    (runLoop args startTime recTime inputs (initState diskFree0)).state.lf = []
    ∧ (runProgram args startTime recTime diskFree0 inputs).all
        (fun e => !e.isSendTrack) = true := by
  refine ⟨runLoop_state_lf args startTime recTime inputs _ rfl, ?_⟩
  unfold runProgram
  simp only [List.all_append]
  rw [runLoop_no_send args startTime recTime inputs _ rfl, cleanup_no_send]
  rfl

/-- Recognize events concerning the frequency-based full-frame job. -/
def Event.isFireOrModify : Event → Bool
  | Event.fireFull _ => true
  | Event.modifyFull _ => true
  | _ => false

/-- Scan a trace up to the first modify of the full-frame job argument
(the first tick on which both queues yielded a sample): every firing of
the job seen before that point must carry the None argument the job was
scheduled with. -/
def fireBeforeModifyOk : List Event → Bool
  | [] => true
  | Event.modifyFull _ :: _ => true
  | Event.fireFull a :: rest => a.isNone && fireBeforeModifyOk rest
  | _ :: rest => fireBeforeModifyOk rest

theorem fbm_skip (l₁ l₂ : List Event)
    (h : l₁.all (fun e => !e.isFireOrModify) = true) :
    fireBeforeModifyOk (l₁ ++ l₂) = fireBeforeModifyOk l₂ := by
  induction l₁ with
  | nil => rfl
  | cons e rest ih =>
    simp only [List.all_cons, Bool.and_eq_true] at h
    cases e <;> simp_all [fireBeforeModifyOk, Event.isFireOrModify]

theorem fbm_of_all (l : List Event)
    (h : l.all (fun e => !e.isFireOrModify) = true) :
    fireBeforeModifyOk l = true := by
  have := fbm_skip l [] h
  rwa [List.append_nil] at this

theorem fbm_append_right (l₁ l₂ : List Event)
    (h1 : fireBeforeModifyOk l₁ = true)
    (h2 : l₂.all (fun e => !e.isFireOrModify) = true) :
    fireBeforeModifyOk (l₁ ++ l₂) = true := by
  induction l₁ with
  | nil => exact fbm_of_all l₂ h2
  | cons e rest ih =>
    cases e <;> simp_all [fireBeforeModifyOk]

theorem cleanup_no_fm (args : Args) (st : LoopState) :
    (cleanup args st).all (fun e => !e.isFireOrModify) = true := by
  unfold cleanup
  by_cases hs : schedulerExists args = true <;>
    simp [hs, List.all_cons, List.all_append, List.all_map, List.all_eq_true,
      Function.comp, Event.isFireOrModify]

theorem runLoop_fire_none (args : Args) (startTime recTime : Nat) :
    ∀ (inputs : List LoopInput) (st : LoopState), st.fullArg = none →
      fireBeforeModifyOk (runLoop args startTime recTime inputs st).events = true := by
  intro inputs
  induction inputs with
  | nil => intro st h; rfl
  | cons inp rest ih =>
    intro st h
    have hmtf : ∀ l : List Nat,
        (l.map Event.threadDone).all (fun e => !e.isFireOrModify) = true := by
      intro l
      simp [List.all_map, List.all_eq_true, Function.comp, Event.isFireOrModify]
    have hptf : ∀ (fbuf obuf : Nat) (cropOk : Nat → Bool) (tracks : List Tracklet)
        (lf : LostFrames) (tid : Nat),
        (processTracks args fbuf obuf cropOk tracks lf tid).events.all
          (fun e => !e.isFireOrModify) = true := by
      intros
      apply processTracks_all <;> (intros; rfl)
    rw [runLoop]
    split
    · cases hs : inp.sample with
      | none =>
        rw [h]
        by_cases hf : args.saveFullFrames = some FullMode.freq ∧ inp.fireFull = true <;>
          simp [hf, fireBeforeModifyOk, fbm_skip, hmtf, ih, h]
      | some tracks =>
        dsimp only
        rw [h]
        by_cases hq : args.saveFullFrames = some FullMode.freq <;>
          by_cases hiff : inp.fireFull = true <;>
            by_cases hr : (processTracks args st.nextBuf
                (if args.saveOverlayFrames = true then st.nextBuf + 1 else st.nextBuf)
                inp.cropOk tracks st.lf st.nextTid).raised = true <;>
              simp [hq, hiff, hr, fireBeforeModifyOk, fbm_skip, hmtf, hptf, ih, h,
                fbm_of_all]
    · rfl

/-- C10: for every run of the embedded program, with any flags and any
input sequence, the frequency-based full-frame job is initially
scheduled with a None frame argument and that argument changes only on
ticks where both queues yield a sample (the modify events); therefore
every firing of the job that occurs before the first synchronized
sample invokes save_full_frame with None instead of a frame. -/
theorem c10_fire_before_first_sample_is_none (args : Args)
    (startTime recTime diskFree0 : Nat) (inputs : List LoopInput) :
    fireBeforeModifyOk (runProgram args startTime recTime diskFree0 inputs) = true := by
  unfold runProgram
  exact fbm_append_right _ _
    (runLoop_fire_none args startTime recTime inputs _ rfl) (cleanup_no_fm args _)

/-- Recognize every event except a raised save_crop_metadata exception. -/
def Event.noRaise : Event → Bool
  | Event.cropRaise _ _ => false
  | _ => true

/-- Scan a trace for the first raised save exception: everything after
it must belong to the finally block (scheduler shutdown, thread joins,
the summary write), and the summary write must still occur.  A trace
with no raise passes vacuously. -/
def abortsAfterRaise : List Event → Bool
  | [] => true
  | Event.cropRaise _ _ :: rest =>
    rest.all Event.isCleanupKind && rest.contains Event.recordLog
  | _ :: rest => abortsAfterRaise rest

theorem aar_skip (l₁ l₂ : List Event) (h : l₁.all Event.noRaise = true) :
    abortsAfterRaise (l₁ ++ l₂) = abortsAfterRaise l₂ := by
  induction l₁ with
  | nil => rfl
  | cons e rest ih =>
    simp only [List.all_cons, Bool.and_eq_true] at h
    cases e <;> simp_all [abortsAfterRaise, Event.noRaise]

theorem aar_of_no_raise (l : List Event) (h : l.all Event.noRaise = true) :
    abortsAfterRaise l = true := by
  have := aar_skip l [] h
  rwa [List.append_nil] at this

theorem cleanup_all_kind (args : Args) (st : LoopState) :
    (cleanup args st).all Event.isCleanupKind = true := by
  unfold cleanup
  by_cases hs : schedulerExists args = true <;>
    simp [hs, List.all_cons, List.all_append, List.all_map, List.all_eq_true,
      Function.comp, Event.isCleanupKind]

theorem cleanup_contains_log (args : Args) (st : LoopState) :
    (cleanup args st).contains Event.recordLog = true := by
  unfold cleanup
  by_cases hs : schedulerExists args = true <;> simp [hs, List.elem_eq_mem]

theorem cleanup_no_raise (args : Args) (st : LoopState) :
    (cleanup args st).all Event.noRaise = true := by
  unfold cleanup
  by_cases hs : schedulerExists args = true <;>
    simp [hs, List.all_cons, List.all_append, List.all_map, List.all_eq_true,
      Function.comp, Event.noRaise]

theorem processTracksAux_aar (args : Args) (fbuf obuf n : Nat) (allIds : List Nat)
    (cropOk : Nat → Bool) :
    ∀ (tracks : List Tracklet) (i : Nat) (lf : LostFrames) (tid : Nat)
      (l₂ : List Event), l₂.all Event.isCleanupKind = true →
      l₂.contains Event.recordLog = true →
      ((processTracksAux args fbuf obuf n allIds cropOk tracks i lf tid).raised = true →
        abortsAfterRaise
          ((processTracksAux args fbuf obuf n allIds cropOk tracks i lf tid).events ++ l₂)
          = true)
      ∧ ((processTracksAux args fbuf obuf n allIds cropOk tracks i lf tid).raised = false →
        (processTracksAux args fbuf obuf n allIds cropOk tracks i lf tid).events.all
          Event.noRaise = true) := by
  intro tracks
  induction tracks with
  | nil =>
    intro i lf tid l₂ hk hl
    refine ⟨fun hfalse => (nomatch hfalse), fun _ => rfl⟩
  | cons t rest ih =>
    intro i lf tid l₂ hk hl
    have hte : (trackletEvents args fbuf obuf n i t tid).1.all Event.noRaise = true := by
      apply trackletEvents_all <;> (intros; rfl)
    have hmap : ((lostFramesPass lf allIds).2.map Event.sendTrack).all
        Event.noRaise = true := by
      refine List.all_eq_true.mpr fun x hx => ?_
      rcases List.mem_map.mp hx with ⟨y, hy, rfl⟩
      rfl
    rw [processTracksAux]
    split
    · refine ⟨fun _ => ?_, fun hfalse => (nomatch hfalse)⟩
      show abortsAfterRaise ([Event.cropRaise i t.id] ++ l₂) = true
      rw [List.cons_append, List.nil_append]
      simp only [abortsAfterRaise]
      rw [hk, hl]
      rfl
    · dsimp only
      constructor
      · intro hr
        simp only [List.append_assoc, List.cons_append]
        rw [aar_skip _ _ hte]
        simp only [abortsAfterRaise]
        rw [aar_skip _ _ hmap]
        exact (ih _ _ _ l₂ hk hl).1 hr
      · intro hr
        rw [List.all_append, List.all_append, hte, List.all_cons, hmap,
          (ih _ _ _ l₂ hk hl).2 hr]
        rfl

theorem processTracks_aar (args : Args) (fbuf obuf : Nat) (cropOk : Nat → Bool)
    (tracks : List Tracklet) (lf : LostFrames) (tid : Nat) (l₂ : List Event)
    (hk : l₂.all Event.isCleanupKind = true)
    (hl : l₂.contains Event.recordLog = true) :
    ((processTracks args fbuf obuf cropOk tracks lf tid).raised = true →
      abortsAfterRaise ((processTracks args fbuf obuf cropOk tracks lf tid).events ++ l₂)
        = true)
    ∧ ((processTracks args fbuf obuf cropOk tracks lf tid).raised = false →
      (processTracks args fbuf obuf cropOk tracks lf tid).events.all
        Event.noRaise = true) :=
  processTracksAux_aar args fbuf obuf _ _ cropOk tracks 0 lf tid l₂ hk hl

theorem runLoop_aar (args : Args) (startTime recTime : Nat) :
    ∀ (inputs : List LoopInput) (st : LoopState) (l₂ : List Event),
      l₂.all Event.isCleanupKind = true → l₂.contains Event.recordLog = true →
      ((runLoop args startTime recTime inputs st).raised = true →
        abortsAfterRaise ((runLoop args startTime recTime inputs st).events ++ l₂) = true)
      ∧ ((runLoop args startTime recTime inputs st).raised = false →
        (runLoop args startTime recTime inputs st).events.all Event.noRaise = true) := by
  intro inputs
  induction inputs with
  | nil =>
    intro st l₂ hk hl
    exact ⟨fun hfalse => (nomatch hfalse), fun _ => rfl⟩
  | cons inp rest ih =>
    intro st l₂ hk hl
    have hdone : ∀ l : List Nat, (l.map Event.threadDone).all Event.noRaise = true := by
      intro l
      refine List.all_eq_true.mpr fun x hx => ?_
      rcases List.mem_map.mp hx with ⟨y, hy, rfl⟩
      rfl
    rw [runLoop]
    split
    · cases hs : inp.sample with
      | none =>
        dsimp only
        constructor
        · intro hr
          have hih := (ih _ _ hk hl).1 hr
          by_cases hq : args.saveFullFrames = some FullMode.freq <;>
            by_cases hiff : inp.fireFull = true <;>
              simpa [hq, hiff, List.append_assoc, List.cons_append, abortsAfterRaise,
                aar_skip, hdone] using hih
        · intro hr
          have hih := (ih _ _ hk hl).2 hr
          by_cases hq : args.saveFullFrames = some FullMode.freq <;>
            by_cases hiff : inp.fireFull = true <;>
              simpa [hq, hiff, List.all_append, List.all_cons, hdone,
                Event.noRaise] using hih
      | some tracks =>
        dsimp only
        have hpt := processTracks_aar args st.nextBuf
          (if args.saveOverlayFrames = true then st.nextBuf + 1 else st.nextBuf)
          inp.cropOk tracks st.lf st.nextTid l₂ hk hl
        rcases Bool.eq_false_or_eq_true ((processTracks args st.nextBuf
            (if args.saveOverlayFrames = true then st.nextBuf + 1 else st.nextBuf)
            inp.cropOk tracks st.lf st.nextTid).raised) with hr2 | hr2
        · rw [if_pos hr2]
          refine ⟨fun _ => ?_, fun hfalse => (nomatch hfalse)⟩
          by_cases hq : args.saveFullFrames = some FullMode.freq <;>
            by_cases hiff : inp.fireFull = true <;>
              simp [hq, hiff, List.append_assoc, List.cons_append, abortsAfterRaise,
                hpt.1 hr2]
        · rw [if_neg (by simp [hr2])]
          constructor
          · intro hr
            have hih := (ih _ _ hk hl).1 hr
            by_cases hq : args.saveFullFrames = some FullMode.freq <;>
              by_cases hiff : inp.fireFull = true <;>
                simpa [hq, hiff, List.append_assoc, List.cons_append, abortsAfterRaise,
                  aar_skip, hpt.2 hr2, hdone] using hih
          · intro hr
            have hih := (ih _ _ hk hl).2 hr
            by_cases hq : args.saveFullFrames = some FullMode.freq <;>
              by_cases hiff : inp.fireFull = true <;>
                simpa [hq, hiff, List.all_append, List.all_cons, hpt.2 hr2, hdone,
                  Event.noRaise] using hih
    · exact ⟨fun hfalse => (nomatch hfalse), fun _ => rfl⟩

/-- C4 amended: if save_crop_metadata raises during a tick, the
exception is not caught (the except handlers at source lines 366-372
are commented out): it propagates out of the recording loop, ending
recording — no further tracklet or tick is processed and nothing is
logged — while the finally block still runs, so everything after the
raise in the trace is cleanup (scheduler shutdown, thread joins) and
the session summary is still written.  Proved for every flag
combination and every input sequence. -/
theorem c4_amended_raise_ends_recording (args : Args)
    (startTime recTime diskFree0 : Nat) (inputs : List LoopInput) :
    abortsAfterRaise (runProgram args startTime recTime diskFree0 inputs) = true := by
  show abortsAfterRaise
    ((runLoop args startTime recTime inputs (initState diskFree0)).events
      ++ cleanup args (runLoop args startTime recTime inputs (initState diskFree0)).state)
    = true
  rcases Bool.eq_false_or_eq_true
      (runLoop args startTime recTime inputs (initState diskFree0)).raised with hr | hr
  · exact (runLoop_aar args startTime recTime inputs (initState diskFree0) _
      (cleanup_all_kind args _) (cleanup_contains_log args _)).1 hr
  · apply aar_of_no_raise
    rw [List.all_append,
      (runLoop_aar args startTime recTime inputs (initState diskFree0)
        (cleanup args (runLoop args startTime recTime inputs (initState diskFree0)).state)
        (cleanup_all_kind args _) (cleanup_contains_log args _)).2 hr,
      cleanup_no_raise]
    rfl

/-- Tracklet indices for which a full-frame thread is dispatched. -/
def dispatchFullIdxs (l : List Event) : List Nat :=
  l.filterMap fun e => match e with
    | Event.dispatchFull i _ _ => some i
    | _ => none

/-- Track IDs for which an overlay thread is dispatched, in order. -/
def dispatchOverlayIds (l : List Event) : List Nat :=
  l.filterMap fun e => match e with
    | Event.dispatchOverlay _ _ t _ => some t
    | _ => none

theorem dispatchFullIdxs_append (l₁ l₂ : List Event) :
    dispatchFullIdxs (l₁ ++ l₂) = dispatchFullIdxs l₁ ++ dispatchFullIdxs l₂ :=
  List.filterMap_append l₁ l₂ _

theorem dispatchFullIdxs_nil : dispatchFullIdxs [] = [] := rfl

theorem dispatchFullIdxs_saveCrop (a b c : Nat) (l : List Event) :
    dispatchFullIdxs (Event.saveCrop a b c :: l) = dispatchFullIdxs l := rfl

theorem dispatchFullIdxs_full (a b c : Nat) (l : List Event) :
    dispatchFullIdxs (Event.dispatchFull a b c :: l) = a :: dispatchFullIdxs l := rfl

theorem dispatchFullIdxs_overlay (a b c d : Nat) (l : List Event) :
    dispatchFullIdxs (Event.dispatchOverlay a b c d :: l) = dispatchFullIdxs l := rfl

theorem dispatchFullIdxs_lfUpdate (l : List Event) :
    dispatchFullIdxs (Event.lfUpdate :: l) = dispatchFullIdxs l := rfl

theorem dispatchFullIdxs_sendMap (l : List Nat) :
    dispatchFullIdxs (l.map Event.sendTrack) = [] := by
  induction l with
  | nil => rfl
  | cons a l ihl => exact ihl

theorem dispatchOverlayIds_append (l₁ l₂ : List Event) :
    dispatchOverlayIds (l₁ ++ l₂) = dispatchOverlayIds l₁ ++ dispatchOverlayIds l₂ :=
  List.filterMap_append l₁ l₂ _

theorem dispatchOverlayIds_nil : dispatchOverlayIds [] = [] := rfl

theorem dispatchOverlayIds_saveCrop (a b c : Nat) (l : List Event) :
    dispatchOverlayIds (Event.saveCrop a b c :: l) = dispatchOverlayIds l := rfl

theorem dispatchOverlayIds_full (a b c : Nat) (l : List Event) :
    dispatchOverlayIds (Event.dispatchFull a b c :: l) = dispatchOverlayIds l := rfl

theorem dispatchOverlayIds_overlay (a b c d : Nat) (l : List Event) :
    dispatchOverlayIds (Event.dispatchOverlay a b c d :: l)
      = c :: dispatchOverlayIds l := rfl

theorem dispatchOverlayIds_lfUpdate (l : List Event) :
    dispatchOverlayIds (Event.lfUpdate :: l) = dispatchOverlayIds l := rfl

theorem dispatchOverlayIds_sendMap (l : List Nat) :
    dispatchOverlayIds (l.map Event.sendTrack) = [] := by
  induction l with
  | nil => rfl
  | cons a l ihl => exact ihl

theorem dispatchFullIdxs_ite_full (c : Prop) [Decidable c] (a b d : Nat) :
    dispatchFullIdxs (if c then [Event.dispatchFull a b d] else [])
      = (if c then [a] else []) := by
  split <;> rfl

theorem dispatchFullIdxs_ite_overlay (c : Prop) [Decidable c] (a b d e : Nat) :
    dispatchFullIdxs (if c then [Event.dispatchOverlay a b d e] else []) = [] := by
  split <;> rfl

theorem dispatchOverlayIds_ite_full (c : Prop) [Decidable c] (a b d : Nat) :
    dispatchOverlayIds (if c then [Event.dispatchFull a b d] else []) = [] := by
  split <;> rfl

theorem dispatchOverlayIds_ite_overlay (c : Prop) [Decidable c] (a b d e : Nat) :
    dispatchOverlayIds (if c then [Event.dispatchOverlay a b d e] else [])
      = (if c then [d] else []) := by
  split <;> rfl

theorem processTracksAux_fullIdxs (ovl lg : Bool) (fbuf obuf : Nat)
    (allIds : List Nat) :
    ∀ (tracks : List Tracklet) (i : Nat) (lf : LostFrames) (tid : Nat),
      dispatchFullIdxs (processTracksAux ⟨some FullMode.det, ovl, lg⟩ fbuf obuf
          (i + tracks.length) allIds (fun _ => true) tracks i lf tid).events
        = (if tracks.getLast?.map (fun t => t.status) = some TrackletStatus.TRACKED then
            [i + tracks.length - 1] else []) := by
  intro tracks
  induction tracks with
  | nil =>
    intro i lf tid
    simp [processTracksAux, dispatchFullIdxs_nil]
  | cons t rest ih =>
    intro i lf tid
    rw [processTracksAux, if_neg (by simp)]
    dsimp only
    cases rest with
    | nil =>
      by_cases ht : t.status = TrackletStatus.TRACKED <;>
        simp [trackletEvents, processTracksAux, ht, dispatchFullIdxs_append,
          dispatchFullIdxs_nil, dispatchFullIdxs_saveCrop, dispatchFullIdxs_lfUpdate,
          dispatchFullIdxs_sendMap, dispatchFullIdxs_ite_full, dispatchFullIdxs_ite_overlay,
          dispatchFullIdxs_full]
    | cons t2 rest2 =>
      have harith : i + (t :: t2 :: rest2).length = (i + 1) + (t2 :: rest2).length := by
        simp only [List.length_cons]
        omega
      have hne : ¬(i + 1 = (i + 1) + (t2 :: rest2).length) := by
        simp only [List.length_cons]
        omega
      rw [harith]
      have hhead : dispatchFullIdxs (trackletEvents ⟨some FullMode.det, ovl, lg⟩
          fbuf obuf ((i + 1) + (t2 :: rest2).length) i t tid).1 = [] := by
        unfold trackletEvents
        by_cases ht : t.status = TrackletStatus.TRACKED <;>
          simp [ht, hne, dispatchFullIdxs_append, dispatchFullIdxs_nil,
            dispatchFullIdxs_saveCrop, dispatchFullIdxs_ite_full,
            dispatchFullIdxs_ite_overlay]
      rw [dispatchFullIdxs_append, dispatchFullIdxs_append, hhead,
        dispatchFullIdxs_lfUpdate, dispatchFullIdxs_sendMap, ih]
      simp [List.getLast?_cons_cons]

theorem processTracksAux_overlayIds (ovl lg : Bool) (fbuf obuf : Nat)
    (allIds : List Nat) :
    ∀ (tracks : List Tracklet) (i : Nat) (lf : LostFrames) (tid : Nat),
      dispatchOverlayIds (processTracksAux ⟨some FullMode.det, ovl, lg⟩ fbuf obuf
          (i + tracks.length) allIds (fun _ => true) tracks i lf tid).events
        = (if ovl = true then
            (tracks.filter (fun t => t.status == TrackletStatus.TRACKED)).map
              (fun t => t.id)
          else []) := by
  intro tracks
  induction tracks with
  | nil =>
    intro i lf tid
    by_cases ho : ovl = true <;> simp [processTracksAux, dispatchOverlayIds_nil, ho]
  | cons t rest ih =>
    intro i lf tid
    rw [processTracksAux, if_neg (by simp)]
    dsimp only
    have harith : i + (t :: rest).length = (i + 1) + rest.length := by
      simp only [List.length_cons]
      omega
    rw [harith]
    rw [dispatchOverlayIds_append, dispatchOverlayIds_append,
      dispatchOverlayIds_lfUpdate, dispatchOverlayIds_sendMap, ih]
    by_cases ht : t.status = TrackletStatus.TRACKED <;>
      by_cases ho : ovl = true <;>
        simp [trackletEvents, ht, ho, dispatchOverlayIds_nil,
          dispatchOverlayIds_append, dispatchOverlayIds_saveCrop,
          dispatchOverlayIds_ite_full, dispatchOverlayIds_ite_overlay,
          dispatchOverlayIds_overlay, List.filter_cons]

/-- C5 amended: in every tick processed in full-frame detection mode,
the asynchronous full-frame job is dispatched at most once, and only
for the LAST tracklet of the tick (exactly when that last tracklet has
TRACKED status); the asynchronous overlay job, however, is dispatched
once for EVERY tracklet with TRACKED status — not only for the last
one — because the dispatch at source line 331 has no last-tracklet
guard. -/
theorem c5_amended_dispatch_policy (ovl lg : Bool) (fbuf obuf : Nat)
    (tracks : List Tracklet) (lf : LostFrames) (tid : Nat) :
    dispatchFullIdxs (processTracks ⟨some FullMode.det, ovl, lg⟩ fbuf obuf
        (fun _ => true) tracks lf tid).events
      = (if tracks.getLast?.map (fun t => t.status) = some TrackletStatus.TRACKED then
          [tracks.length - 1] else [])
    ∧ dispatchOverlayIds (processTracks ⟨some FullMode.det, ovl, lg⟩ fbuf obuf
        (fun _ => true) tracks lf tid).events
      = (if ovl = true then
          (tracks.filter (fun t => t.status == TrackletStatus.TRACKED)).map
            (fun t => t.id)
        else []) := by
  constructor
  · have h := processTracksAux_fullIdxs ovl lg fbuf obuf (tracks.map fun t => t.id)
      tracks 0 lf tid
    simpa [processTracks] using h
  · have h := processTracksAux_overlayIds ovl lg fbuf obuf (tracks.map fun t => t.id)
      tracks 0 lf tid
    simpa [processTracks] using h

/-- The buffer discipline of one tick: a synchronous crop save and a
full-frame thread both use the live frame buffer of the tick, an
overlay thread uses the single per-tick copy. -/
def bufsOk (fbuf obuf : Nat) : Event → Bool
  | Event.saveCrop _ _ b => b == fbuf
  | Event.dispatchFull _ _ b => b == fbuf
  | Event.dispatchOverlay _ _ _ b => b == obuf
  | _ => true

theorem trackletEvents_bufs (args : Args) (fbuf obuf n i : Nat) (t : Tracklet)
    (tid : Nat) :
    (trackletEvents args fbuf obuf n i t tid).1.all (bufsOk fbuf obuf) = true := by
  unfold trackletEvents
  by_cases hs : t.status = TrackletStatus.TRACKED <;>
    by_cases hd : args.saveFullFrames = some FullMode.det ∧ i + 1 = n <;>
      by_cases ho : args.saveOverlayFrames = true <;>
        simp [hs, hd, ho, bufsOk]

theorem processTracksAux_bufs (args : Args) (fbuf obuf n : Nat) (allIds : List Nat)
    (cropOk : Nat → Bool) :
    ∀ (tracks : List Tracklet) (i : Nat) (lf : LostFrames) (tid : Nat),
      (processTracksAux args fbuf obuf n allIds cropOk tracks i lf tid).events.all
        (bufsOk fbuf obuf) = true := by
  intro tracks
  induction tracks with
  | nil => intro i lf tid; rfl
  | cons t rest ih =>
    intro i lf tid
    rw [processTracksAux]
    split
    · simp [bufsOk]
    · have hmapb : ((lostFramesPass lf allIds).2.map Event.sendTrack).all
          (bufsOk fbuf obuf) = true := by
        refine List.all_eq_true.mpr fun x hx => ?_
        rcases List.mem_map.mp hx with ⟨y, hy, rfl⟩
        rfl
      rw [List.all_append, List.all_append, trackletEvents_bufs, List.all_cons,
        hmapb, ih]
      rfl

/-- C9 amended: within one tick, every synchronous crop save and every
dispatched full-frame thread uses the tick's live HQ frame buffer
(there is no copy-on-dispatch for the full-frame thread: it shares the
buffer with the orchestrator's own crop saves), and every dispatched
overlay thread uses the tick's single frame_hq_copy, which is therefore
shared by all overlay threads of that tick.  Fresh buffers are
allocated only per tick, never per job. -/
theorem c9_amended_buffer_discipline (args : Args) (fbuf obuf : Nat)
    (cropOk : Nat → Bool) (tracks : List Tracklet) (lf : LostFrames) (tid : Nat) :
    (processTracks args fbuf obuf cropOk tracks lf tid).events.all
      (bufsOk fbuf obuf) = true :=
  processTracksAux_bufs args fbuf obuf _ _ cropOk tracks 0 lf tid

/-- Observe whether a trace begins with a loop iteration. -/
def firstTickStart : List Event → Bool
  | Event.tickStart :: _ => true
  | _ => false

/-- C6 amended: the loop stops exactly when elapsed time is at or past
the recording duration OR the free-disk estimate is at or below the
floor (the while condition at source line 288 requires strictly more
than MIN_DISKSPACE to continue, so the loop already stops when free
space equals the floor); the condition is evaluated once at the top of
each iteration, using the disk value probed at the end of the previous
tick, and when it fails the loop performs no further work (the emitted
trace of the loop is empty). -/
theorem c6_amended_stop_condition (args : Args) (startTime recTime : Nat)
    (inp : LoopInput) (rest : List LoopInput) (st : LoopState) :
    (firstTickStart (runLoop args startTime recTime (inp :: rest) st).events
      = (decide (inp.now < startTime + recTime) && decide (MIN_DISKSPACE < st.diskFree)))
    ∧ ((runLoop args startTime recTime (inp :: rest) st).events.isEmpty
        || firstTickStart (runLoop args startTime recTime (inp :: rest) st).events)
      = true := by
  rw [runLoop]
  by_cases hc : inp.now < startTime + recTime ∧ MIN_DISKSPACE < st.diskFree
  · rw [if_pos hc]
    cases hs : inp.sample with
    | none => exact ⟨by simp [firstTickStart, hc.1, hc.2], by simp [firstTickStart]⟩
    | some tracks =>
      dsimp only
      rcases Bool.eq_false_or_eq_true ((processTracks args st.nextBuf
          (if args.saveOverlayFrames = true then st.nextBuf + 1 else st.nextBuf)
          inp.cropOk tracks st.lf st.nextTid).raised) with hr | hr
      · rw [if_pos hr]
        exact ⟨by simp [firstTickStart, hc.1, hc.2], by simp [firstTickStart]⟩
      · rw [if_neg (by simp [hr])]
        exact ⟨by simp [firstTickStart, hc.1, hc.2], by simp [firstTickStart]⟩
  · rw [if_neg hc]
    constructor
    · by_cases h1 : inp.now < startTime + recTime
      · by_cases h2 : MIN_DISKSPACE < st.diskFree
        · exact absurd ⟨h1, h2⟩ hc
        · simp [h1, h2, firstTickStart]
      · by_cases h2 : MIN_DISKSPACE < st.diskFree
        · simp [h1, h2, firstTickStart]
        · simp [h1, h2, firstTickStart]
    · rfl

/-- C7 amended: the startup sequence runs the shutdown command exactly
when the startup free-disk probe is below the floor, but the script
itself never exits there: regardless of the probe it then writes the
incremented recording ID to durable storage and creates the recording
session directory (actual termination relies on the operating system
halting, not on the script). -/
theorem c7_amended_startup_continues (args : Args) (d : Nat) :
    (StartupEffect.shutdownCmd ∈ startupEffects args d ↔ d < MIN_DISKSPACE)
    ∧ StartupEffect.writeRecId ∈ startupEffects args d
    ∧ StartupEffect.mkdirSavePath ∈ startupEffects args d := by
  unfold startupEffects
  by_cases hd : d < MIN_DISKSPACE <;>
    by_cases hf : args.saveFullFrames.isSome <;>
      by_cases ho : args.saveOverlayFrames <;>
        simp [hd, hf, ho]

/-- A job completion event observed strictly before the summary write:
scan the trace up to the first recordLog; the given thread must have
been seen finished (prune) or joined before that point. -/
def completedBeforeSummary (tid : Nat) : List Event → Bool
  | [] => false
  | e :: rest =>
    if e = Event.recordLog then false
    else if e = Event.threadDone tid ∨ e = Event.joinThread tid then true
    else completedBeforeSummary tid rest

/-- Recognize a join or a summary write. -/
def Event.isJoinOrLog : Event → Bool
  | Event.joinThread _ => true
  | Event.recordLog => true
  | _ => false

/-- The scheduler shutdown precedes every join and the summary write. -/
def schedFirst : List Event → Bool
  | [] => true
  | e :: rest =>
    if e = Event.schedulerShutdown then true
    else if e.isJoinOrLog = true then false
    else schedFirst rest

/-- No scheduler job fires after the scheduler shutdown. -/
def noFireAfterShutdown : List Event → Bool
  | [] => true
  | e :: rest =>
    if e = Event.schedulerShutdown then rest.all (fun x => !x.isFireFull)
    else noFireAfterShutdown rest

theorem runLoop_no_cleanup_events (args : Args) (startTime recTime : Nat)
    (inputs : List LoopInput) (st : LoopState) :
    (runLoop args startTime recTime inputs st).events.all
      (fun e => !e.isCleanupKind) = true := by
  apply runLoop_all <;> (intros; rfl)

theorem recordLog_not_mem_of_no_cleanup (l : List Event)
    (h : l.all (fun e => !e.isCleanupKind) = true) : Event.recordLog ∉ l := by
  intro hm
  have := List.all_eq_true.mp h _ hm
  simp [Event.isCleanupKind] at this

theorem cbs_mem_left (tid : Nat) (l₁ l₂ : List Event)
    (hnl : Event.recordLog ∉ l₁)
    (h : Event.threadDone tid ∈ l₁ ∨ Event.joinThread tid ∈ l₁) :
    completedBeforeSummary tid (l₁ ++ l₂) = true := by
  induction l₁ with
  | nil => rcases h with h | h <;> cases h
  | cons e rest ih =>
    rw [List.cons_append]
    by_cases h1 : e = Event.recordLog
    · exact absurd (List.mem_cons.mpr (Or.inl h1.symm)) hnl
    · by_cases h2 : e = Event.threadDone tid ∨ e = Event.joinThread tid
      · simp [completedBeforeSummary, h1, h2]
      · have hrest : Event.threadDone tid ∈ rest ∨ Event.joinThread tid ∈ rest := by
          rcases h with h | h
          · rcases List.mem_cons.mp h with he | hr
            · exact absurd (Or.inl he.symm) h2
            · exact Or.inl hr
          · rcases List.mem_cons.mp h with he | hr
            · exact absurd (Or.inr he.symm) h2
            · exact Or.inr hr
        have hnl2 : Event.recordLog ∉ rest := fun hm => hnl (List.mem_cons_of_mem _ hm)
        simp [completedBeforeSummary, h1, h2, ih hnl2 hrest]

theorem cbs_skip_left (tid : Nat) (l₁ l₂ : List Event)
    (hnl : Event.recordLog ∉ l₁)
    (h : completedBeforeSummary tid l₂ = true) :
    completedBeforeSummary tid (l₁ ++ l₂) = true := by
  induction l₁ with
  | nil => exact h
  | cons e rest ih =>
    rw [List.cons_append]
    by_cases h1 : e = Event.recordLog
    · exact absurd (List.mem_cons.mpr (Or.inl h1.symm)) hnl
    · by_cases h2 : e = Event.threadDone tid ∨ e = Event.joinThread tid
      · simp [completedBeforeSummary, h1, h2]
      · have hnl2 : Event.recordLog ∉ rest := fun hm => hnl (List.mem_cons_of_mem _ hm)
        simp [completedBeforeSummary, h1, h2, ih hnl2]

theorem cbs_cleanup (tid : Nat) (args : Args) (st : LoopState)
    (h : tid ∈ st.threads) :
    completedBeforeSummary tid (cleanup args st) = true := by
  unfold cleanup
  have hjoin : Event.joinThread tid ∈ st.threads.map Event.joinThread :=
    List.mem_map.mpr ⟨tid, h, rfl⟩
  refine cbs_mem_left tid _ _ ?_ ?_
  · intro hm
    rcases List.mem_append.mp hm with hm | hm
    · by_cases hs : schedulerExists args = true <;> simp [hs] at hm
    · rcases List.mem_map.mp hm with ⟨y, _, hy⟩
      cases hy
  · right
    exact List.mem_append.mpr (Or.inr hjoin)

theorem schedFirst_skip (l₁ l₂ : List Event)
    (h : l₁.all (fun e => !e.isCleanupKind) = true) :
    schedFirst (l₁ ++ l₂) = schedFirst l₂ := by
  induction l₁ with
  | nil => rfl
  | cons e rest ih =>
    simp only [List.all_cons, Bool.and_eq_true] at h
    have h1 : ¬(e = Event.schedulerShutdown) := by
      intro he
      rw [he] at h
      simp [Event.isCleanupKind] at h
    have h2 : e.isJoinOrLog = false := by
      cases e <;> simp_all [Event.isJoinOrLog, Event.isCleanupKind]
    rw [List.cons_append]
    simp [schedFirst, h1, h2, ih h.2]

theorem nfas_skip (l₁ l₂ : List Event)
    (h : l₁.all (fun e => !e.isCleanupKind) = true) :
    noFireAfterShutdown (l₁ ++ l₂) = noFireAfterShutdown l₂ := by
  induction l₁ with
  | nil => rfl
  | cons e rest ih =>
    simp only [List.all_cons, Bool.and_eq_true] at h
    have h1 : ¬(e = Event.schedulerShutdown) := by
      intro he
      rw [he] at h
      simp [Event.isCleanupKind] at h
    rw [List.cons_append]
    simp [noFireAfterShutdown, h1, ih h.2]

theorem nfas_no_shutdown (l : List Event)
    (h : ∀ e ∈ l, ¬(e = Event.schedulerShutdown)) :
    noFireAfterShutdown l = true := by
  induction l with
  | nil => rfl
  | cons e rest ih =>
    simp [noFireAfterShutdown, h e (List.mem_cons_self e rest),
      ih fun x hx => h x (List.mem_cons_of_mem _ hx)]

theorem schedFirst_cleanup (args : Args) (st : LoopState)
    (h : schedulerExists args = true) :
    schedFirst (cleanup args st) = true := by
  simp [cleanup, h, schedFirst]

theorem nfas_cleanup (args : Args) (st : LoopState) :
    noFireAfterShutdown (cleanup args st) = true := by
  unfold cleanup
  by_cases hs : schedulerExists args = true
  · rw [if_pos hs]
    show noFireAfterShutdown (Event.schedulerShutdown :: (st.threads.map Event.joinThread ++ [Event.recordLog])) = true
    simp only [noFireAfterShutdown, if_pos rfl]
    refine List.all_eq_true.mpr fun x hx => ?_
    rcases List.mem_append.mp hx with hx | hx
    · rcases List.mem_map.mp hx with ⟨y, _, rfl⟩
      rfl
    · rcases List.mem_singleton.mp hx with rfl
      rfl
  · rw [if_neg hs]
    refine nfas_no_shutdown _ fun e he hcon => ?_
    rw [List.nil_append] at he
    rcases List.mem_append.mp he with he | he
    · rcases List.mem_map.mp he with ⟨y, _, hy⟩
      rw [hcon] at hy
      cases hy
    · rcases List.mem_singleton.mp he with rfl
      cases hcon

theorem dispatchedTids_append (l₁ l₂ : List Event) :
    dispatchedTids (l₁ ++ l₂) = dispatchedTids l₁ ++ dispatchedTids l₂ :=
  List.filterMap_append l₁ l₂ _

theorem dispatchedTids_tickStart (l : List Event) :
    dispatchedTids (Event.tickStart :: l) = dispatchedTids l := rfl

theorem dispatchedTids_ite_fire (c : Prop) [Decidable c] (x : Option Nat) :
    dispatchedTids (if c then [Event.fireFull x] else []) = [] := by
  split <;> rfl

theorem dispatchedTids_ite_modify (c : Prop) [Decidable c] (b : Nat) :
    dispatchedTids (if c then [Event.modifyFull b] else []) = [] := by
  split <;> rfl

theorem dispatchedTids_doneMap (l : List Nat) :
    dispatchedTids (l.map Event.threadDone) = [] := by
  induction l with
  | nil => rfl
  | cons a l ihl => exact ihl

theorem dispatchedTids_shutdownIte (c : Prop) [Decidable c] :
    dispatchedTids (if c then [Event.schedulerShutdown] else []) = [] := by
  split <;> rfl

theorem dispatchedTids_joinMap (l : List Nat) :
    dispatchedTids (l.map Event.joinThread) = [] := by
  induction l with
  | nil => rfl
  | cons a l ihl => exact ihl

theorem dispatchedTids_cleanup (args : Args) (st : LoopState) :
    dispatchedTids (cleanup args st) = [] := by
  unfold cleanup
  rw [dispatchedTids_append, dispatchedTids_append, dispatchedTids_shutdownIte,
    dispatchedTids_joinMap]
  rfl

theorem prune_partition (tid : Nat) (l fns : List Nat) (h : tid ∈ l) :
    Event.threadDone tid ∈ (l.filter (fun t => decide (t ∈ fns))).map Event.threadDone
    ∨ tid ∈ l.filter (fun t => !decide (t ∈ fns)) := by
  by_cases hm : tid ∈ fns
  · exact Or.inl (List.mem_map.mpr ⟨tid, List.mem_filter.mpr ⟨h, by simp [hm]⟩, rfl⟩)
  · exact Or.inr (List.mem_filter.mpr ⟨h, by simp [hm]⟩)

theorem runLoop_threads (args : Args) (startTime recTime : Nat) :
    ∀ (inputs : List LoopInput) (st : LoopState) (tid : Nat),
      (tid ∈ dispatchedTids (runLoop args startTime recTime inputs st).events
        ∨ tid ∈ st.threads) →
      Event.threadDone tid ∈ (runLoop args startTime recTime inputs st).events
        ∨ tid ∈ (runLoop args startTime recTime inputs st).state.threads := by
  intro inputs
  induction inputs with
  | nil =>
    intro st tid h
    rcases h with h | h
    · cases h
    · exact Or.inr h
  | cons inp rest ih =>
    intro st tid h
    rw [runLoop] at h ⊢
    by_cases hc : inp.now < startTime + recTime ∧ MIN_DISKSPACE < st.diskFree
    · rw [if_pos hc] at h ⊢
      rcases hsam : inp.sample with _ | tracks
      · rw [hsam] at h
        dsimp only at h ⊢
        simp only [dispatchedTids_append, dispatchedTids_tickStart,
          dispatchedTids_ite_fire, dispatchedTids_doneMap, List.nil_append,
          List.append_nil, List.mem_append] at h
        have hrec := ih
          { st with diskFree := inp.diskAfter,
                    threads := st.threads.filter (fun t => !decide (t ∈ inp.finished)) } tid
        rcases h with h | h
        · rcases hrec (Or.inl h) with hA | hA
          · exact Or.inl (by simp [List.mem_cons, List.mem_append, hA])
          · exact Or.inr hA
        · rcases prune_partition tid st.threads inp.finished h with hA | hA
          · exact Or.inl (by simp [List.mem_cons, List.mem_append, hA])
          · rcases hrec (Or.inr hA) with hB | hB
            · exact Or.inl (by simp [List.mem_cons, List.mem_append, hB])
            · exact Or.inr hB
      · rw [hsam] at h
        dsimp only at h ⊢
        rcases Bool.eq_false_or_eq_true ((processTracks args st.nextBuf
            (if args.saveOverlayFrames = true then st.nextBuf + 1 else st.nextBuf)
            inp.cropOk tracks st.lf st.nextTid).raised) with hr | hr
        · rw [if_pos hr] at h ⊢
          dsimp only at h ⊢
          refine Or.inr ?_
          simp only [dispatchedTids_append, dispatchedTids_tickStart,
            dispatchedTids_ite_fire, dispatchedTids_ite_modify, List.nil_append,
            List.mem_append] at h
          rcases h with h | h
          · exact List.mem_append.mpr (Or.inr h)
          · exact List.mem_append.mpr (Or.inl h)
        · rw [if_neg (by simp [hr])] at h ⊢
          dsimp only at h ⊢
          simp only [dispatchedTids_append, dispatchedTids_tickStart,
            dispatchedTids_ite_fire, dispatchedTids_ite_modify,
            dispatchedTids_doneMap, List.nil_append, List.append_nil,
            List.mem_append] at h
          have hrec := ih
            { lf := (processTracks args st.nextBuf
                (if args.saveOverlayFrames = true then st.nextBuf + 1 else st.nextBuf)
                inp.cropOk tracks st.lf st.nextTid).lf,
              diskFree := inp.diskAfter,
              threads := (st.threads ++ dispatchedTids (processTracks args st.nextBuf
                (if args.saveOverlayFrames = true then st.nextBuf + 1 else st.nextBuf)
                inp.cropOk tracks st.lf st.nextTid).events).filter
                  (fun t => !decide (t ∈ inp.finished)),
              fullArg := if args.saveFullFrames = some FullMode.freq then some st.nextBuf
                else st.fullArg,
              nextTid := (processTracks args st.nextBuf
                (if args.saveOverlayFrames = true then st.nextBuf + 1 else st.nextBuf)
                inp.cropOk tracks st.lf st.nextTid).nextTid,
              nextBuf := if args.saveOverlayFrames = true then st.nextBuf + 2
                else st.nextBuf + 1 } tid
          have hpart : tid ∈ st.threads ++ dispatchedTids (processTracks args st.nextBuf
              (if args.saveOverlayFrames = true then st.nextBuf + 1 else st.nextBuf)
              inp.cropOk tracks st.lf st.nextTid).events →
              Event.threadDone tid ∈ (runLoop args startTime recTime rest
                { lf := (processTracks args st.nextBuf
                    (if args.saveOverlayFrames = true then st.nextBuf + 1 else st.nextBuf)
                    inp.cropOk tracks st.lf st.nextTid).lf,
                  diskFree := inp.diskAfter,
                  threads := (st.threads ++ dispatchedTids (processTracks args st.nextBuf
                    (if args.saveOverlayFrames = true then st.nextBuf + 1 else st.nextBuf)
                    inp.cropOk tracks st.lf st.nextTid).events).filter
                      (fun t => !decide (t ∈ inp.finished)),
                  fullArg := if args.saveFullFrames = some FullMode.freq then some st.nextBuf
                    else st.fullArg,
                  nextTid := (processTracks args st.nextBuf
                    (if args.saveOverlayFrames = true then st.nextBuf + 1 else st.nextBuf)
                    inp.cropOk tracks st.lf st.nextTid).nextTid,
                  nextBuf := if args.saveOverlayFrames = true then st.nextBuf + 2
                    else st.nextBuf + 1 }).events
              ∨ Event.threadDone tid ∈ ((st.threads ++ dispatchedTids (processTracks args
                  st.nextBuf
                  (if args.saveOverlayFrames = true then st.nextBuf + 1 else st.nextBuf)
                  inp.cropOk tracks st.lf st.nextTid).events).filter
                    (fun t => decide (t ∈ inp.finished))).map Event.threadDone
              ∨ tid ∈ (runLoop args startTime recTime rest
                { lf := (processTracks args st.nextBuf
                    (if args.saveOverlayFrames = true then st.nextBuf + 1 else st.nextBuf)
                    inp.cropOk tracks st.lf st.nextTid).lf,
                  diskFree := inp.diskAfter,
                  threads := (st.threads ++ dispatchedTids (processTracks args st.nextBuf
                    (if args.saveOverlayFrames = true then st.nextBuf + 1 else st.nextBuf)
                    inp.cropOk tracks st.lf st.nextTid).events).filter
                      (fun t => !decide (t ∈ inp.finished)),
                  fullArg := if args.saveFullFrames = some FullMode.freq then some st.nextBuf
                    else st.fullArg,
                  nextTid := (processTracks args st.nextBuf
                    (if args.saveOverlayFrames = true then st.nextBuf + 1 else st.nextBuf)
                    inp.cropOk tracks st.lf st.nextTid).nextTid,
                  nextBuf := if args.saveOverlayFrames = true then st.nextBuf + 2
                    else st.nextBuf + 1 }).state.threads := by
            intro h1
            rcases prune_partition tid _ inp.finished h1 with hA | hA
            · exact Or.inr (Or.inl hA)
            · rcases hrec (Or.inr hA) with hB | hB
              · exact Or.inl hB
              · exact Or.inr (Or.inr hB)
          rcases h with (h | h) | h
          · rcases hpart (List.mem_append.mpr (Or.inr h)) with hB | hB | hB
            · exact Or.inl (List.mem_cons_of_mem _ (List.mem_append.mpr (Or.inr hB)))
            · exact Or.inl (List.mem_cons_of_mem _ (List.mem_append.mpr
                (Or.inl (List.mem_append.mpr (Or.inr hB)))))
            · exact Or.inr hB
          · rcases hrec (Or.inl h) with hB | hB
            · exact Or.inl (List.mem_cons_of_mem _ (List.mem_append.mpr (Or.inr hB)))
            · exact Or.inr hB
          · rcases hpart (List.mem_append.mpr (Or.inl h)) with hB | hB | hB
            · exact Or.inl (List.mem_cons_of_mem _ (List.mem_append.mpr (Or.inr hB)))
            · exact Or.inl (List.mem_cons_of_mem _ (List.mem_append.mpr
                (Or.inl (List.mem_append.mpr (Or.inr hB)))))
            · exact Or.inr hB
    · rw [if_neg hc] at h ⊢
      rcases h with h | h
      · cases h
      · exact Or.inr h

/-- C8: on every stop — normal completion or an exception that reaches
the cleanup path — the finally block shuts down the periodic-job
scheduler first (no scheduler firing occurs after the shutdown, and the
shutdown precedes every thread join and the summary write), then joins
the dispatched persistence threads, and only then writes the session
summary: every dispatched thread was observed completed (pruned as
finished or joined) strictly before the summary record, which is the
last event of every trace. -/
theorem c8_shutdown_ordering (args : Args) (startTime recTime diskFree0 : Nat)
    (inputs : List LoopInput) :
    ((dispatchedTids (runProgram args startTime recTime diskFree0 inputs)).all
      (fun tid => completedBeforeSummary tid
        (runProgram args startTime recTime diskFree0 inputs)) = true)
    ∧ (runProgram args startTime recTime diskFree0 inputs).getLast?
        = some Event.recordLog
    ∧ ((!schedulerExists args
        || (schedFirst (runProgram args startTime recTime diskFree0 inputs)
          && noFireAfterShutdown (runProgram args startTime recTime diskFree0 inputs)))
        = true) := by
  have hform : runProgram args startTime recTime diskFree0 inputs
      = (runLoop args startTime recTime inputs (initState diskFree0)).events
        ++ cleanup args
            (runLoop args startTime recTime inputs (initState diskFree0)).state := rfl
  have hkinds := runLoop_no_cleanup_events args startTime recTime inputs (initState diskFree0)
  have hnl := recordLog_not_mem_of_no_cleanup _ hkinds
  refine ⟨?_, ?_, ?_⟩
  · rw [hform]
    refine List.all_eq_true.mpr fun tid hmem => ?_
    rw [dispatchedTids_append, dispatchedTids_cleanup, List.append_nil] at hmem
    rcases runLoop_threads args startTime recTime inputs (initState diskFree0) tid
      (Or.inl hmem) with hA | hA
    · exact cbs_mem_left tid _ _ hnl (Or.inl hA)
    · exact cbs_skip_left tid _ _ hnl (cbs_cleanup tid args _ hA)
  · rw [hform]
    have hsplit : (runLoop args startTime recTime inputs (initState diskFree0)).events
        ++ cleanup args
            (runLoop args startTime recTime inputs (initState diskFree0)).state
        = ((runLoop args startTime recTime inputs (initState diskFree0)).events
            ++ ((if schedulerExists args = true then [Event.schedulerShutdown] else [])
              ++ (runLoop args startTime recTime inputs
                  (initState diskFree0)).state.threads.map Event.joinThread))
          ++ [Event.recordLog] := by
      simp [cleanup]
    rw [hsplit, List.getLast?_concat]
  · by_cases hs : schedulerExists args = true
    · rw [hform, schedFirst_skip _ _ hkinds, nfas_skip _ _ hkinds,
        schedFirst_cleanup args _ hs, nfas_cleanup args _]
      simp
    · simp [hs]

end InsectDetect
